import Mathlib

/-!
# hmap: hex-grid map highlighting

A verification development for `hmap/hadesmap.go`.  Go strings are modelled as
Lean strings (text in UTF-8, a byte below 128 being a character below 128), Go
`int` as `Int` with explicit 64-bit two's-complement wrapping, `uint` as `Nat`,
`float64` by an operation record with an exact IEEE 754 instance, and the
collaborators of the package (the file system, the image codecs,
`resize.Resize`, `draw.Draw`, `path.Join`, the Unicode case tables, and the
package members `staticPath` and `newCellPoint`, which live in another file) as
fields of an environment record.  A nil pointer or interface is `none`, a
run-time panic is a result `none`.
-/

namespace hmap

/-! ## Strings -/

/-- Lower-casing of one ASCII byte, as in the ASCII loop of `strings.ToLower`:
`if 'A' <= c && c <= 'Z' { c += 'a' - 'A' }`. -/
def asciiLower (c : Char) : Char :=
  if 65 ≤ c.toNat ∧ c.toNat ≤ 90 then Char.ofNat (c.toNat + 32) else c

/-- The function `strings.ToLower`.  A string all of whose bytes are below
`utf8.RuneSelf` (128) is lower-cased byte by byte; any other string is handed
to `strings.Map(unicode.ToLower, s)`, here the parameter `unicodeLower`. -/
def ToLower (unicodeLower : String → String) (s : String) : String :=
  if s.data.all (fun c => decide (c.toNat < 128)) then
    String.mk (s.data.map asciiLower)
  else
    unicodeLower s

/-- The function `strings.HasSuffix`. -/
def HasSuffix (s suffix : String) : Bool :=
  suffix.data.isSuffixOf s.data

/-! ## The coordinate grid -/

/-- The slice literal `directions` of `isValidCoord`. -/
def directions : List String :=
  [ "a1", "a2", "a3", "a4",
    "b1", "b2", "b3", "b4", "b5",
    "c1", "c2", "c3", "c4", "c5", "c6",
    "d1", "d2", "d3", "d4", "d5", "d6", "d7",
    "e1", "e2", "e3", "e4", "e5", "e6",
    "f1", "f2", "f3", "f4", "f5",
    "g1", "g2", "g3", "g4" ]

/-- The loop `for _, c := range directions { if coord == c { return true } }`
followed by `return false`. -/
def isValidCoord.scan (coord : String) : List String → Bool
  | [] => false
  | c :: rest => if coord = c then true else isValidCoord.scan coord rest

/-- The function `isValidCoord`. -/
def isValidCoord (unicodeLower : String → String) (coord : String) : Bool :=
  let coord := ToLower unicodeLower coord
  isValidCoord.scan coord directions

/-- Column count of a grid row, from the specification: rows `a` to `g` have
4, 5, 6, 7, 6, 5 and 4 columns. -/
def columnCount (row : Char) : Nat :=
  if row = 'a' then 4 else if row = 'b' then 5 else if row = 'c' then 6
  else if row = 'd' then 7 else if row = 'e' then 6 else if row = 'f' then 5
  else if row = 'g' then 4 else 0

/-- A grid token in the words of the specification: exactly two characters, a
row letter in `a..g` followed by a column digit from `1` up to the column
count of that row. -/
def isGridToken (t : String) : Bool :=
  match t.data with
  | [row, col] =>
    decide (('a').toNat ≤ row.toNat ∧ row.toNat ≤ ('g').toNat) &&
      decide (('1').toNat ≤ col.toNat ∧ col.toNat ≤ ('0').toNat + columnCount row)
  | _ => false

/-! ## Machine integers and geometry -/

/-- Reduction of an integer to the 64-bit two's-complement range of Go `int`. -/
def wrapInt (x : Int) : Int :=
  (x + 2 ^ 63) % 2 ^ 64 - 2 ^ 63

/-- The conversion `uint(x)` of an `int`. -/
def toUint (x : Int) : Nat :=
  (x % 2 ^ 64).toNat

/-- The type `image.Point`. -/
structure Point where
  X : Int
  Y : Int
  deriving DecidableEq, Repr

/-- The method `Point.Add`. -/
def Point.Add (p q : Point) : Point :=
  ⟨wrapInt (p.X + q.X), wrapInt (p.Y + q.Y)⟩

/-- The type `image.Rectangle`. -/
structure Rectangle where
  Min : Point
  Max : Point
  deriving DecidableEq, Repr

/-- The method `Rectangle.Dx`. -/
def Rectangle.Dx (r : Rectangle) : Int :=
  wrapInt (r.Max.X - r.Min.X)

/-- The method `Rectangle.Dy`. -/
def Rectangle.Dy (r : Rectangle) : Int :=
  wrapInt (r.Max.Y - r.Min.Y)

/-- The function `image.Rect`, which orders each pair of coordinates. -/
def Rect (x0 y0 x1 y1 : Int) : Rectangle :=
  let (x0, x1) := if x0 > x1 then (x1, x0) else (x0, x1)
  let (y0, y1) := if y0 > y1 then (y1, y0) else (y0, y1)
  ⟨⟨x0, y0⟩, ⟨x1, y1⟩⟩

/-! ## Images -/

/-- A colour value as returned by `color.Color.RGBA`. -/
structure Pixel where
  R : Nat
  G : Nat
  B : Nat
  A : Nat
  deriving DecidableEq, Repr

/-- What an `image.Image` shows: its bounds and the colour at each point. -/
structure Image where
  Rect : Rectangle
  At : Int → Int → Pixel

/-- The method `Bounds` of an image. -/
def Image.Bounds (img : Image) : Rectangle :=
  img.Rect

/-- The function `image.NewRGBA`: a canvas with the given bounds and all
pixels zero. -/
def NewRGBA (r : Rectangle) : Image :=
  ⟨r, fun _ _ => ⟨0, 0, 0, 0⟩⟩

/-- An image as produced by `jpeg.Decode` or `png.Decode`: its bounds run from
`(0,0)` to `(width,height)`, and both formats keep the dimensions below
`2^31`. -/
structure Decoded where
  width : Nat
  height : Nat
  width_lt : width < 2 ^ 31
  height_lt : height < 2 ^ 31
  At : Int → Int → Pixel

/-- The decoded raster as an `image.Image`. -/
def Decoded.image (d : Decoded) : Image :=
  ⟨⟨⟨0, 0⟩, ⟨d.width, d.height⟩⟩, d.At⟩

/-- A value of interface type `draw.Image` as `GenerateBaseImage` and
`HighlightCoord` handle it: the nil interface, or an interface holding a
pointer to a canvas, where the pointer itself may be nil. -/
inductive DrawImage where
  | nilInterface : DrawImage
  | pointer (canvas : Option Image) : DrawImage

/-- A Go `error` value, identified by its message. -/
structure GoError where
  msg : String
  deriving DecidableEq, Repr

/-- The type `Color`, a string. -/
abbrev Color := String

/-- The constant `Green`. -/
def Green : Color := "green"

/-- The constant `Orange`. -/
def Orange : Color := "orange"

/-- The constant `Pink`. -/
def Pink : Color := "pink"

/-- The constant `Yellow`. -/
def Yellow : Color := "yellow"

/-- The constant `Red`. -/
def Red : Color := "red"

/-- The constant `Warn`. -/
def Warn : Color := "warn"

/-- The constant `DefaultColor`. -/
def DefaultColor : Color := Green

/-- The struct `hex`. -/
structure hex where
  img : Option Image
  rect : Rectangle

/-- The zero value `hex{}`. -/
def hex.zero : hex :=
  ⟨none, ⟨⟨0, 0⟩, ⟨0, 0⟩⟩⟩

/-- The pair returned by `newCellPoint`. -/
structure cellPoint (F : Type) where
  x : F
  y : F

/-! ## Collaborators -/

/-- The `float64` operations the package uses. -/
structure FloatOps (F : Type) where
  /-- Conversion of an untyped constant to `float64`. -/
  ofConst : ℚ → F
  /-- The conversion `float64(i)` of an `int`. -/
  ofInt : Int → F
  /-- Multiplication of two `float64` values. -/
  mul : F → F → F
  /-- The conversion `int(f)`. -/
  toInt : F → Int
  /-- The conversion `uint(f)`. -/
  toUint : F → Nat

/-- What the package calls but does not define in `hadesmap.go`. -/
structure Env (F : Type) where
  /-- The call `strings.Map(unicode.ToLower, s)`. -/
  unicodeLower : String → String
  /-- The call `os.Open`, giving the content of the file. -/
  Open : String → Except GoError (List Nat)
  /-- The call `jpeg.Decode`. -/
  jpegDecode : List Nat → Except GoError Decoded
  /-- The call `png.Decode`. -/
  pngDecode : List Nat → Except GoError Decoded
  /-- The call `resize.Resize(width, height, img, resize.Lanczos3)` on a
  non-nil image. -/
  Resize : Nat → Nat → Image → Image
  /-- The pixels of the destination after `draw.Draw(dst, r, src, sp, draw.Over)`. -/
  DrawOver : Image → Rectangle → Image → Point → Int → Int → Pixel
  /-- The call `path.Join`. -/
  pathJoin : String → String → String
  /-- The package variable `staticPath`. -/
  staticPath : String
  /-- The package function `newCellPoint`. -/
  newCellPoint : String → cellPoint F

/-- The call `draw.Draw(dst, r, src, sp, draw.Over)`: the pixels of `dst`
change, its bounds do not. -/
def Env.Draw {F : Type} (env : Env F) (dst : Image) (r : Rectangle) (src : Image)
    (sp : Point) : Image :=
  ⟨dst.Rect, env.DrawOver dst r src sp⟩

/-- A call to a collaborator that the development keeps track of. -/
inductive Call where
  | Open (path : String) : Call
  | Resize (width height : Nat) : Call
  deriving DecidableEq, Repr

/-! ## The package -/

/-- The constant `cellSizeHight`, an exact untyped constant. -/
def cellSizeHight : ℚ := 1 / 7

/-- The constant `cellSizeWight`, an exact untyped constant. -/
def cellSizeWight : ℚ := 1 / 7 - 7 / 1000

/-- The function `LoadImage`.  The result is the returned pair (a nil image is
`none`, a nil error is `none`) and the collaborator calls made. -/
def LoadImage {F : Type} (env : Env F) (filePath : String) :
    (Option Decoded × Option GoError) × List Call :=
  match env.Open filePath with
  | .error err => ((none, some err), [Call.Open filePath])
  | .ok file =>
    if HasSuffix filePath ".jpeg" then
      match env.jpegDecode file with
      | .error err => ((none, some err), [Call.Open filePath])
      | .ok img => ((some img, none), [Call.Open filePath])
    else if HasSuffix filePath ".png" then
      match env.pngDecode file with
      | .error err => ((none, some err), [Call.Open filePath])
      | .ok img => ((some img, none), [Call.Open filePath])
    else
      ((none, none), [Call.Open filePath])

/-- The loop of `GenerateBaseImage` from iteration `i` on, with the current
values of `baseImage` and `bounds`.  The result is `none` when the loop
panics, otherwise the returned pair; the second component lists the
collaborator calls made. -/
def GenerateBaseImage.loop {F : Type} (env : Env F) :
    Nat → List String → Option Image → Rectangle →
      Option (DrawImage × Option GoError) × List Call
  | _, [], baseImage, _ => (some (DrawImage.pointer baseImage, none), [])
  | i, layer :: rest, baseImage, bounds =>
    match LoadImage env layer with
    | ((_, some err), calls) => (some (DrawImage.nilInterface, some err), calls)
    | ((none, none), calls) => (none, calls)
    | ((some d, none), calls) =>
      let img := d.image
      let bounds := if i = 0 then img.Bounds else bounds
      let baseImage :=
        if i = 0 then some (NewRGBA (Rect 0 0 bounds.Dx bounds.Dy)) else baseImage
      let resized := decide (bounds ≠ img.Bounds)
      let img :=
        if resized then env.Resize (toUint bounds.Dx) (toUint bounds.Dy) img else img
      let calls :=
        if resized then calls ++ [Call.Resize (toUint bounds.Dx) (toUint bounds.Dy)]
        else calls
      match baseImage with
      | none => (none, calls)
      | some canvas =>
        let r :=
          GenerateBaseImage.loop env (i + 1) rest
            (some (env.Draw canvas canvas.Bounds img ⟨0, 0⟩)) bounds
        (r.1, calls ++ r.2)

/-- The function `GenerateBaseImage`. -/
def GenerateBaseImage {F : Type} (env : Env F) (layers : List String) :
    Option (DrawImage × Option GoError) × List Call :=
  GenerateBaseImage.loop env 0 layers none ⟨⟨0, 0⟩, ⟨0, 0⟩⟩

/-- The function `getTargetPoint`. -/
def getTargetPoint {F : Type} (fl : FloatOps F) (env : Env F) (coords : String)
    (base hex : Rectangle) : Rectangle :=
  let coordPoint : Point :=
    ⟨fl.toInt (fl.mul (fl.ofInt base.Dx) (env.newCellPoint coords).x),
     fl.toInt (fl.mul (fl.ofInt base.Dy) (env.newCellPoint coords).y)⟩
  let hexRect : Rectangle := ⟨coordPoint, coordPoint.Add hex.Max⟩
  hexRect

/-- The function `getHex`.  The result is `none` when the call panics,
otherwise the returned pair; the second component lists the collaborator
calls made. -/
def getHex {F : Type} (fl : FloatOps F) (env : Env F) (coord : String) (color : Color)
    (baseBounds : Rectangle) : Option (hex × Option GoError) × List Call :=
  if !isValidCoord env.unicodeLower coord then
    (some (hex.zero, some ⟨"invalid coordinate: " ++ coord⟩), [])
  else
    match LoadImage env (env.pathJoin env.staticPath ("hex_" ++ color ++ ".png")) with
    | ((_, some err), calls) => (some (hex.zero, some err), calls)
    | ((none, none), calls) =>
      (none, calls ++ [Call.Resize 0 (fl.toUint (fl.mul (fl.ofConst cellSizeHight)
        (fl.ofInt baseBounds.Dy)))])
    | ((some hexImg, none), calls) =>
      let height := fl.toUint (fl.mul (fl.ofConst cellSizeHight) (fl.ofInt baseBounds.Dy))
      let hexImageResized := env.Resize 0 height hexImg.image
      let hexRect := getTargetPoint fl env coord baseBounds hexImageResized.Bounds
      (some (⟨some hexImageResized, hexRect⟩, none), calls ++ [Call.Resize 0 height])

/-- What a call of `HighlightCoord` leaves behind: the returned pair (`none`
when the call panics), the caller's canvas after the call, and the
collaborator calls made. -/
structure Highlighted where
  result : Option (DrawImage × Option GoError)
  canvas : DrawImage
  calls : List Call

/-- The function `HighlightCoord`. -/
def HighlightCoord {F : Type} (fl : FloatOps F) (env : Env F) (baseImage : DrawImage)
    (coords : String) (color : Color) : Highlighted :=
  match baseImage with
  | DrawImage.nilInterface => ⟨none, baseImage, []⟩
  | DrawImage.pointer none => ⟨none, baseImage, []⟩
  | DrawImage.pointer (some canvas) =>
    match getHex fl env coords color canvas.Bounds with
    | (none, calls) => ⟨none, baseImage, calls⟩
    | (some (_, some err), calls) => ⟨some (DrawImage.nilInterface, some err), baseImage, calls⟩
    | (some (h, none), calls) =>
      match h.img with
      | none => ⟨none, baseImage, calls⟩
      | some img =>
        let drawn := DrawImage.pointer (some (env.Draw canvas h.rect img ⟨0, 0⟩))
        ⟨some (drawn, none), drawn, calls⟩

/-! ## The `float64` arithmetic of Go -/

/-- Exponent of the unit in the last place of the `float64` binade of a
positive `q`: 52 below the binary exponent of `q`, and never below `-1074`. -/
def ulpExp (q : ℚ) : Int :=
  max (Int.log 2 q - 52) (-1074)

/-- Rounding of a non-negative rational to the nearest integer, ties to the
even one. -/
def roundHalfEven (t : ℚ) : Int :=
  let n := ⌊t⌋
  let r := t - n
  if r < 1 / 2 then n
  else if 1 / 2 < r then n + 1
  else if n % 2 = 0 then n else n + 1

/-- Rounding of a positive rational to a multiple of the unit in the last
place of its binade, to nearest, ties to even. -/
def roundPos (q : ℚ) : ℚ :=
  roundHalfEven (q / 2 ^ ulpExp q) * 2 ^ ulpExp q

/-- The `float64` nearest to a rational (IEEE 754 round to nearest, ties to
even).  A finite `float64` is given by its value, `none` stands for the
infinities and NaN; the sign of zero is not kept. -/
def roundFloat64 (q : ℚ) : Option ℚ :=
  let r := if q = 0 then 0 else if q < 0 then -roundPos (-q) else roundPos q
  if |r| < 2 ^ 1024 then some r else none

/-- Truncation towards zero. -/
def truncate (x : ℚ) : Int :=
  if 0 ≤ x then ⌊x⌋ else ⌈x⌉

/-- The `float64` operations on a 64-bit platform.  Where the target type of
a conversion cannot represent the value, Go leaves the result to the
implementation: `intOther` and `uintOther` give it. -/
def ieee64 (intOther : Option ℚ → Int) (uintOther : Option ℚ → Nat) :
    FloatOps (Option ℚ) where
  ofConst := fun q => roundFloat64 q
  ofInt := fun i => roundFloat64 i
  mul := fun a b =>
    match a, b with
    | some x, some y => roundFloat64 (x * y)
    | _, _ => none
  toInt := fun f =>
    match f with
    | some x =>
      if -2 ^ 63 ≤ truncate x ∧ truncate x < 2 ^ 63 then truncate x else intOther f
    | none => intOther f
  toUint := fun f =>
    match f with
    | some x =>
      if 0 ≤ truncate x ∧ truncate x < 2 ^ 64 then (truncate x).toNat else uintOther f
    | none => uintOther f

/-- The `float64` operations with one choice of the results Go leaves open. -/
def sampleFloat : FloatOps (Option ℚ) :=
  ieee64 (fun _ => -2 ^ 63) (fun _ => 2 ^ 63)

/-! ## Observations and a sample environment -/

/-- The paths handed to `os.Open`, in order. -/
def opened : List Call → List String
  | [] => []
  | Call.Open path :: rest => path :: opened rest
  | Call.Resize _ _ :: rest => opened rest

/-- A raster of two by three opaque black pixels. -/
def sampleRaster : Decoded :=
  ⟨2, 3, by decide, by decide, fun _ _ => ⟨0, 0, 0, 65535⟩⟩

/-- A small environment: every file opens except `missing.png`, PNG content
decodes to `sampleRaster`, JPEG content is rejected. -/
def sampleEnv : Env (Option ℚ) where
  unicodeLower := fun s => s
  Open := fun path =>
    if path = "missing.png" then .error ⟨"open missing.png: no such file or directory"⟩
    else .ok []
  jpegDecode := fun _ => .error ⟨"invalid JPEG format: missing SOI marker"⟩
  pngDecode := fun _ => .ok sampleRaster
  Resize := fun w h img => ⟨⟨⟨0, 0⟩, ⟨w, h⟩⟩, img.At⟩
  DrawOver := fun _ _ src _ => src.At
  pathJoin := fun dir file => dir ++ "/" ++ file
  staticPath := "static"
  newCellPoint := fun _ => ⟨some (1 / 2), some (1 / 4)⟩

/-- The sample environment with another normalized position: the `float64`
nearest to one third, and one quarter. -/
def thirdsEnv : Env (Option ℚ) where
  unicodeLower := sampleEnv.unicodeLower
  Open := sampleEnv.Open
  jpegDecode := sampleEnv.jpegDecode
  pngDecode := sampleEnv.pngDecode
  Resize := sampleEnv.Resize
  DrawOver := sampleEnv.DrawOver
  pathJoin := sampleEnv.pathJoin
  staticPath := sampleEnv.staticPath
  newCellPoint := fun _ => ⟨some (6004799503160661 / 18014398509481984), some (1 / 4)⟩

/-! ## Lemmas on the coordinate grid -/

theorem scan_eq_true_iff (coord : String) (l : List String) :
    isValidCoord.scan coord l = true ↔ coord ∈ l := by
  induction l with
  | nil => simp [isValidCoord.scan]
  | cons c rest ih =>
    by_cases h : coord = c
    · simp [isValidCoord.scan, h]
    · simp [isValidCoord.scan, h, ih]

theorem isGridToken_of_mem : ∀ t ∈ directions, isGridToken t = true := by
  decide

theorem char_eq_of_toNat (c : Char) (n : Nat) (h : c.toNat = n) : c = Char.ofNat n := by
  rw [← h, Char.ofNat_toNat]

/-- The grid rows with their column counts, as pairs of character codes. -/
theorem mem_directions_of_codes (row col : Char)
    (hr : 97 ≤ row.toNat ∧ row.toNat ≤ 103)
    (hc : 49 ≤ col.toNat ∧ col.toNat ≤ 48 + columnCount row) :
    String.mk [row, col] ∈ directions := by
  obtain ⟨hr1, hr2⟩ := hr
  obtain ⟨hc1, hc2⟩ := hc
  generalize hn : row.toNat = n at hr1 hr2
  have hrow := char_eq_of_toNat row n hn
  interval_cases n <;> subst hrow <;>
    (have hcc : col.toNat ≤ 55 := le_trans hc2 (by decide)) <;>
    generalize hm : col.toNat = m at hc1 hc2 hcc <;>
    have hcol := char_eq_of_toNat col m hm <;>
    interval_cases m <;> subst hcol <;>
    first
      | decide
      | (exfalso; revert hc2; decide)

theorem mem_of_isGridToken (t : String) (h : isGridToken t = true) : t ∈ directions := by
  obtain ⟨data⟩ := t
  match data, h with
  | [row, col], h =>
    simp only [isGridToken, Bool.and_eq_true, decide_eq_true_eq] at h
    exact mem_directions_of_codes row col h.1 h.2

theorem scan_directions_iff (t : String) :
    isValidCoord.scan t directions = true ↔ isGridToken t = true :=
  (scan_eq_true_iff t directions).trans
    ⟨isGridToken_of_mem t, mem_of_isGridToken t⟩


/-! ## The coordinate grid: claims -/

theorem isValidCoord_iff_mem (u : String → String) (s : String) :
    isValidCoord u s = true ↔ ToLower u s ∈ directions := by
  simp only [isValidCoord]
  exact scan_eq_true_iff _ _

theorem isValidCoord_ascii (u : String → String) (s : String)
    (h : s.data.all (fun c => decide (c.toNat < 128)) = true) :
    isValidCoord u s = isValidCoord.scan (String.mk (s.data.map asciiLower)) directions := by
  simp only [isValidCoord, ToLower, h, if_true]

theorem case_variants_scan : ∀ t ∈ directions,
    (t.data.all (fun c => decide (c.toNat < 128)) = true ∧
      isValidCoord.scan (String.mk (t.data.map asciiLower)) directions = true) ∧
    ((t.data.map Char.toUpper).all (fun c => decide (c.toNat < 128)) = true ∧
      isValidCoord.scan (String.mk ((t.data.map Char.toUpper).map asciiLower)) directions
        = true) := by
  decide

/-- Claim C1: `isValidCoord` accepts a string exactly when its lower-cased form
is a two-character token, a row letter `a..g` followed by a digit from `1` up
to the column count of the row (4, 5, 6, 7, 6, 5, 4); every token and its
upper-case variant is accepted (so `"C4"` is), and `""`, `"a5"`, `"z9"` are
rejected. -/
theorem isValidCoord_iff_gridToken (u : String → String) (s : String) :
    (isValidCoord u s = true ↔ isGridToken (ToLower u s) = true) ∧
    (∀ t ∈ directions, isValidCoord u t = true ∧
      isValidCoord u (String.mk (t.data.map Char.toUpper)) = true) ∧
    isValidCoord u "C4" = true ∧
    isValidCoord u "" = false ∧ isValidCoord u "a5" = false ∧
    isValidCoord u "z9" = false := by
  refine ⟨?_, ?_, ?_, ?_, ?_, ?_⟩
  · simp only [isValidCoord]
    exact scan_directions_iff _
  · intro t ht
    obtain ⟨⟨h1, h2⟩, h3, h4⟩ := case_variants_scan t ht
    exact ⟨(isValidCoord_ascii u t h1).trans h2,
      (isValidCoord_ascii u (String.mk (t.data.map Char.toUpper)) h3).trans h4⟩
  · exact (isValidCoord_ascii u "C4" (by decide)).trans (by decide)
  · exact (isValidCoord_ascii u "" (by decide)).trans (by decide)
  · exact (isValidCoord_ascii u "a5" (by decide)).trans (by decide)
  · exact (isValidCoord_ascii u "z9" (by decide)).trans (by decide)

/-- Claim C1 at the token `d4` and its upper-case variant `D4`. -/
theorem isValidCoord_iff_gridToken_witness :
    isValidCoord (fun s => s) "d4" = true ∧ isValidCoord (fun s => s) "D4" = true :=
  (isValidCoord_iff_gridToken (fun s => s) "d4").2.1 "d4" (by decide)

/-- Claim C8, as stated, fails: the list `isValidCoord` checks membership in does
not hold 34 tokens. -/
theorem directions_count_ne_34 :
    directions.length ≠ 34 ∧ directions.toFinset.card ≠ 34 := by
  decide

/-- Claim C8, amended: the list `isValidCoord` checks membership in holds exactly
37 tokens (4 + 5 + 6 + 7 + 6 + 5 + 4), no two of them equal. -/
theorem directions_count (u : String → String) (s : String) :
    (isValidCoord u s = true ↔ ToLower u s ∈ directions) ∧
    directions.length = 37 ∧ directions.Nodup ∧ directions.toFinset.card = 37 :=
  ⟨isValidCoord_iff_mem u s, by decide, by decide, by decide⟩

/-! ## Loading images: claims -/

theorem not_hasSuffix_of_ends (stem ext suffix : String)
    (h1 : ¬ suffix.data <:+ ext.data) (h2 : ¬ ext.data <:+ suffix.data) :
    HasSuffix (stem ++ ext) suffix = false := by
  simp only [HasSuffix, Bool.eq_false_iff, ne_eq, List.isSuffixOf_iff_suffix]
  intro h
  have h3 : ext.data <:+ (stem ++ ext).data := by
    rw [String.data_append]
    exact List.suffix_append _ _
  rcases List.suffix_or_suffix_of_suffix h h3 with h4 | h4
  · exact h1 h4
  · exact h2 h4

/-- Claim C9: for a path that opens and ends with neither `.jpeg` nor `.png`,
`LoadImage` returns a nil image and a nil error; the suffix test is
case-sensitive and exact, so paths ending in `.PNG` or `.jpg` are of that kind;
a path that does not open yields the error of `os.Open` whatever its
extension. -/
theorem LoadImage_unrecognized {F : Type} (env : Env F) (filePath : String) :
    (∀ file, env.Open filePath = .ok file → HasSuffix filePath ".jpeg" = false →
      HasSuffix filePath ".png" = false →
      LoadImage env filePath = ((none, none), [Call.Open filePath])) ∧
    (∀ err, env.Open filePath = .error err →
      LoadImage env filePath = ((none, some err), [Call.Open filePath])) ∧
    (∀ stem : String,
      HasSuffix (stem ++ ".PNG") ".jpeg" = false ∧ HasSuffix (stem ++ ".PNG") ".png" = false ∧
      HasSuffix (stem ++ ".jpg") ".jpeg" = false ∧
      HasSuffix (stem ++ ".jpg") ".png" = false) := by
  refine ⟨?_, ?_, ?_⟩
  · intro file hopen hj hp
    simp [LoadImage, hopen, hj, hp]
  · intro err hopen
    simp [LoadImage, hopen]
  · intro stem
    refine ⟨?_, ?_, ?_, ?_⟩ <;>
      exact not_hasSuffix_of_ends _ _ _ (by decide) (by decide)

/-- Claim C9 at `map.PNG` and at `missing.png` in the sample environment. -/
theorem LoadImage_unrecognized_witness :
    LoadImage sampleEnv "map.PNG" = ((none, none), [Call.Open "map.PNG"]) ∧
    LoadImage sampleEnv "missing.png" =
      ((none, some ⟨"open missing.png: no such file or directory"⟩),
        [Call.Open "missing.png"]) :=
  ⟨(LoadImage_unrecognized sampleEnv "map.PNG").1 [] rfl (by decide) (by decide),
   (LoadImage_unrecognized sampleEnv "missing.png").2.1 _ rfl⟩

/-! ## Highlighting: claims -/

/-- Claim C2, as stated, fails on the canvas that `GenerateBaseImage` returns
for no layers, a `draw.Image` holding a nil pointer: with the rejected
coordinate `z9` the call panics at `baseImage.Bounds()` and returns no error. -/
theorem HighlightCoord_invalid_counterexample :
    isValidCoord sampleEnv.unicodeLower "z9" = false ∧
    (GenerateBaseImage sampleEnv []).1 = some (DrawImage.pointer none, none) ∧
    (HighlightCoord sampleFloat sampleEnv (DrawImage.pointer none) "z9" Green).result =
      none ∧
    (HighlightCoord sampleFloat sampleEnv DrawImage.nilInterface "z9" Green).result = none :=
  ⟨by decide, rfl, rfl, rfl⟩

/-- Claim C2, amended: for a non-nil canvas and a coordinate string that
`isValidCoord` rejects,
`HighlightCoord` returns a nil canvas and the error `invalid coordinate: ...`,
opens no file and resizes nothing in any environment, so the outcome is the
same in every other environment with the same case tables, and the caller's
canvas is left as it was, pixels and bounds. -/
theorem HighlightCoord_invalid {F : Type} (fl : FloatOps F) (env : Env F) (canvas : Image)
    (coords : String) (color : Color)
    (h : isValidCoord env.unicodeLower coords = false) :
    HighlightCoord fl env (DrawImage.pointer (some canvas)) coords color =
      ⟨some (DrawImage.nilInterface, some ⟨"invalid coordinate: " ++ coords⟩),
        DrawImage.pointer (some canvas), []⟩ ∧
    (HighlightCoord fl env (DrawImage.pointer (some canvas)) coords color).canvas =
      DrawImage.pointer (some canvas) ∧
    (∀ env2 : Env F, env2.unicodeLower = env.unicodeLower →
      HighlightCoord fl env2 (DrawImage.pointer (some canvas)) coords color =
        HighlightCoord fl env (DrawImage.pointer (some canvas)) coords color) := by
  have key : ∀ e : Env F, e.unicodeLower = env.unicodeLower →
      HighlightCoord fl e (DrawImage.pointer (some canvas)) coords color =
        ⟨some (DrawImage.nilInterface, some ⟨"invalid coordinate: " ++ coords⟩),
          DrawImage.pointer (some canvas), []⟩ := by
    intro e he
    simp [HighlightCoord, getHex, he, h]
  refine ⟨key env rfl, ?_, ?_⟩
  · rw [key env rfl]
  · intro env2 h2
    rw [key env2 h2, key env rfl]

/-- Claim C2, amended, at the coordinate `z9` on a fresh one by one canvas. -/
theorem HighlightCoord_invalid_witness :
    HighlightCoord sampleFloat sampleEnv (DrawImage.pointer (some (NewRGBA (Rect 0 0 1 1))))
        "z9" "green" =
      ⟨some (DrawImage.nilInterface, some ⟨"invalid coordinate: z9"⟩),
        DrawImage.pointer (some (NewRGBA (Rect 0 0 1 1))), []⟩ :=
  (HighlightCoord_invalid sampleFloat sampleEnv (NewRGBA (Rect 0 0 1 1)) "z9" "green"
    (by decide)).1

/-! ## The target rectangle: claims -/

theorem wrapInt_sub_wrapInt_add (o m : Int) : wrapInt (wrapInt (o + m) - o) = wrapInt m := by
  unfold wrapInt
  omega

theorem getTargetPoint_Dx {F : Type} (fl : FloatOps F) (env : Env F) (coords : String)
    (base marker : Rectangle) :
    (getTargetPoint fl env coords base marker).Dx = wrapInt marker.Max.X ∧
    (getTargetPoint fl env coords base marker).Dy = wrapInt marker.Max.Y := by
  simp only [getTargetPoint, Rectangle.Dx, Rectangle.Dy, Point.Add, wrapInt_sub_wrapInt_add,
    and_self]

/-- Claim C6, as stated, fails: for marker bounds from `(10,10)` to `(30,30)`
the marker is 20 wide and 20 high, the target rectangle 30 wide and 30 high. -/
theorem getTargetPoint_size_counterexample :
    Rectangle.Dx ⟨⟨10, 10⟩, ⟨30, 30⟩⟩ = 20 ∧ Rectangle.Dy ⟨⟨10, 10⟩, ⟨30, 30⟩⟩ = 20 ∧
    (getTargetPoint sampleFloat sampleEnv "d4" ⟨⟨0, 0⟩, ⟨700, 700⟩⟩ ⟨⟨10, 10⟩, ⟨30, 30⟩⟩).Dx = 30 ∧
    (getTargetPoint sampleFloat sampleEnv "d4" ⟨⟨0, 0⟩, ⟨700, 700⟩⟩ ⟨⟨10, 10⟩, ⟨30, 30⟩⟩).Dy = 30 := by
  refine ⟨by decide, by decide, ?_, ?_⟩
  · rw [(getTargetPoint_Dx _ _ _ _ _).1]; decide
  · rw [(getTargetPoint_Dx _ _ _ _ _).2]; decide

/-- Claim C6, amended: the width and height of the target rectangle of
`getTargetPoint` are the `Max.X` and `Max.Y` of the marker bounds, as 64-bit
integers; for marker bounds whose `Min` point is `(0,0)`, as are those of a
decoded or resized marker, they are the width and the height of the marker
bounds. -/
theorem getTargetPoint_size {F : Type} (fl : FloatOps F) (env : Env F) (coords : String)
    (base marker : Rectangle) :
    ((getTargetPoint fl env coords base marker).Dx = wrapInt marker.Max.X ∧
      (getTargetPoint fl env coords base marker).Dy = wrapInt marker.Max.Y) ∧
    (marker.Min = ⟨0, 0⟩ →
      (getTargetPoint fl env coords base marker).Dx = marker.Dx ∧
      (getTargetPoint fl env coords base marker).Dy = marker.Dy) := by
  refine ⟨getTargetPoint_Dx fl env coords base marker, fun h => ?_⟩
  rw [(getTargetPoint_Dx fl env coords base marker).1,
    (getTargetPoint_Dx fl env coords base marker).2]
  simp [Rectangle.Dx, Rectangle.Dy, h]

/-- Claim C6, amended, for a marker of 86 by 100 pixels on a 700 by 700 canvas. -/
theorem getTargetPoint_size_witness :
    (getTargetPoint sampleFloat sampleEnv "d4" ⟨⟨0, 0⟩, ⟨700, 700⟩⟩ ⟨⟨0, 0⟩, ⟨86, 100⟩⟩).Dx =
      Rectangle.Dx ⟨⟨0, 0⟩, ⟨86, 100⟩⟩ ∧
    (getTargetPoint sampleFloat sampleEnv "d4" ⟨⟨0, 0⟩, ⟨700, 700⟩⟩ ⟨⟨0, 0⟩, ⟨86, 100⟩⟩).Dy =
      Rectangle.Dy ⟨⟨0, 0⟩, ⟨86, 100⟩⟩ :=
  (getTargetPoint_size sampleFloat sampleEnv "d4" ⟨⟨0, 0⟩, ⟨700, 700⟩⟩
    ⟨⟨0, 0⟩, ⟨86, 100⟩⟩).2 rfl

/-! ## Building the base image: claims -/

/-- Claim C10: for the empty list of layers `GenerateBaseImage` calls no
collaborator and returns, without panic, a nil error and a non-nil `draw.Image`
that holds a nil canvas pointer. -/
theorem GenerateBaseImage_nil {F : Type} (env : Env F) :
    GenerateBaseImage env [] = (some (DrawImage.pointer none, none), []) ∧
    (GenerateBaseImage env []).1 ≠ none ∧
    (∀ err, (GenerateBaseImage env []).1 ≠ some (DrawImage.nilInterface, some err)) ∧
    opened (GenerateBaseImage env []).2 = [] := by
  refine ⟨rfl, ?_, ?_, rfl⟩
  · simp [GenerateBaseImage, GenerateBaseImage.loop]
  · intro err
    simp [GenerateBaseImage, GenerateBaseImage.loop]

theorem wrapInt_of_lt (n : Nat) (h : n < 2 ^ 31) : wrapInt ((n : Int) - 0) = n := by
  unfold wrapInt
  omega

theorem Decoded.bounds_Dx (d : Decoded) : d.image.Bounds.Dx = d.width :=
  wrapInt_of_lt d.width d.width_lt

theorem Decoded.bounds_Dy (d : Decoded) : d.image.Bounds.Dy = d.height :=
  wrapInt_of_lt d.height d.height_lt

theorem Rect_of_nat (w h : Nat) : Rect 0 0 w h = ⟨⟨0, 0⟩, ⟨w, h⟩⟩ := by
  have hw : ¬ (0 : Int) > w := by omega
  have hh : ¬ (0 : Int) > h := by omega
  simp [Rect, hw, hh]

theorem Env.Draw_Bounds {F : Type} (env : Env F) (dst : Image) (r : Rectangle) (src : Image)
    (sp : Point) : (env.Draw dst r src sp).Bounds = dst.Bounds :=
  rfl

theorem NewRGBA_Bounds (r : Rectangle) : (NewRGBA r).Bounds = r :=
  rfl

theorem LoadImage_eq_of_fst {F : Type} (env : Env F) (p : String)
    (r : Option Decoded × Option GoError) (h : (LoadImage env p).1 = r) :
    LoadImage env p = (r, (LoadImage env p).2) := by
  rw [← h]

/-- After the first iteration the loop keeps the bounds of the canvas. -/
theorem loop_succ_bounds {F : Type} (env : Env F) (rest : List String) :
    ∀ (i : Nat) (canvas : Image) (bounds : Rectangle),
      (∀ p ∈ rest, ∃ d, (LoadImage env p).1 = (some d, none)) →
      ∃ canvas2, (GenerateBaseImage.loop env (i + 1) rest (some canvas) bounds).1 =
          some (DrawImage.pointer (some canvas2), none) ∧
        canvas2.Bounds = canvas.Bounds := by
  induction rest with
  | nil =>
    intro i canvas bounds _
    exact ⟨canvas, rfl, rfl⟩
  | cons layer rest ih =>
    intro i canvas bounds hall
    obtain ⟨d, hd⟩ := hall layer (List.mem_cons_self _ _)
    have hrest : ∀ p ∈ rest, ∃ d, (LoadImage env p).1 = (some d, none) :=
      fun p hp => hall p (List.mem_cons_of_mem _ hp)
    have hL := LoadImage_eq_of_fst env layer _ hd
    rw [GenerateBaseImage.loop, hL]
    simp only [Nat.succ_ne_zero, if_false]
    obtain ⟨canvas2, h2, hb⟩ := ih (i + 1)
      (env.Draw canvas canvas.Bounds
        (if decide (bounds ≠ d.image.Bounds) = true then
          env.Resize (toUint bounds.Dx) (toUint bounds.Dy) d.image else d.image) ⟨0, 0⟩)
      bounds hrest
    exact ⟨canvas2, h2, hb⟩

/-- Claim C3: when the first layer loads to the image `first` and the later
layers, whatever their number and sizes, all load to images,
`GenerateBaseImage` returns a nil error and a canvas whose bounds run from
`(0,0)` to `(W,H)`, the width and height of the bounds of `first`. -/
theorem GenerateBaseImage_bounds {F : Type} (env : Env F) (layer : String) (first : Decoded)
    (hfirst : (LoadImage env layer).1 = (some first, none)) (rest : List String)
    (hrest : ∀ p ∈ rest, ∃ d, (LoadImage env p).1 = (some d, none)) :
    ∃ canvas, (GenerateBaseImage env (layer :: rest)).1 =
        some (DrawImage.pointer (some canvas), none) ∧
      canvas.Bounds = ⟨⟨0, 0⟩, ⟨first.image.Bounds.Dx, first.image.Bounds.Dy⟩⟩ ∧
      0 ≤ first.image.Bounds.Dx ∧ 0 ≤ first.image.Bounds.Dy := by
  have hL := LoadImage_eq_of_fst env layer _ hfirst
  obtain ⟨canvas2, h2, hb⟩ := loop_succ_bounds env rest 0
    (env.Draw (NewRGBA (Rect 0 0 first.image.Bounds.Dx first.image.Bounds.Dy))
      (NewRGBA (Rect 0 0 first.image.Bounds.Dx first.image.Bounds.Dy)).Bounds
      (if decide (first.image.Bounds ≠ first.image.Bounds) = true then
        env.Resize (toUint first.image.Bounds.Dx) (toUint first.image.Bounds.Dy) first.image
        else first.image) ⟨0, 0⟩)
    first.image.Bounds hrest
  refine ⟨canvas2, ?_, ?_, ?_, ?_⟩
  · rw [GenerateBaseImage, GenerateBaseImage.loop, hL]
    simp only [↓reduceIte]
    exact h2
  · rw [hb, Env.Draw_Bounds, NewRGBA_Bounds, Decoded.bounds_Dx, Decoded.bounds_Dy,
      Rect_of_nat]
  · rw [Decoded.bounds_Dx]; exact Int.natCast_nonneg _
  · rw [Decoded.bounds_Dy]; exact Int.natCast_nonneg _

/-- Claim C3 for two PNG layers in the sample environment: the canvas is two
by three pixels, as the first layer. -/
theorem GenerateBaseImage_bounds_witness :
    ∃ canvas, (GenerateBaseImage sampleEnv ["a.png", "b.png"]).1 =
        some (DrawImage.pointer (some canvas), none) ∧
      canvas.Bounds = ⟨⟨0, 0⟩, ⟨2, 3⟩⟩ :=
  let ⟨canvas, h1, h2, _⟩ := GenerateBaseImage_bounds sampleEnv "a.png" sampleRaster rfl
    ["b.png"] (by
      intro p hp
      simp only [List.mem_singleton] at hp
      subst hp
      exact ⟨sampleRaster, rfl⟩)
  ⟨canvas, h1, h2.trans (by decide)⟩

theorem opened_append (a b : List Call) : opened (a ++ b) = opened a ++ opened b := by
  induction a with
  | nil => rfl
  | cons c rest ih =>
    cases c with
    | Open path => simp [opened, ih]
    | Resize w h => simp [opened, ih]

theorem LoadImage_calls {F : Type} (env : Env F) (p : String) :
    (LoadImage env p).2 = [Call.Open p] := by
  unfold LoadImage
  split
  · rfl
  · split
    · split <;> rfl
    · split
      · split <;> rfl
      · rfl

/-- From the second iteration on, the loop stops at the first layer that
fails to load. -/
theorem loop_succ_fail {F : Type} (env : Env F) (bad : String) (post : List String)
    (err : GoError) (hbad : (LoadImage env bad).1.2 = some err) (pre : List String) :
    ∀ (i : Nat) (base : Option Image) (bounds : Rectangle),
      (∀ p ∈ pre, ∃ d, (LoadImage env p).1 = (some d, none)) →
      (pre = [] ∨ ∃ canvas, base = some canvas) →
      (GenerateBaseImage.loop env (i + 1) (pre ++ bad :: post) base bounds).1 =
          some (DrawImage.nilInterface, some err) ∧
        opened (GenerateBaseImage.loop env (i + 1) (pre ++ bad :: post) base bounds).2 =
          pre ++ [bad] := by
  induction pre with
  | nil =>
    intro i base bounds _ _
    rcases hL : LoadImage env bad with ⟨⟨o, e⟩, calls⟩
    have hc := LoadImage_calls env bad
    rw [hL] at hbad hc
    simp only at hbad hc
    subst hbad hc
    rw [List.nil_append, GenerateBaseImage.loop, hL]
    cases o <;> exact ⟨rfl, rfl⟩
  | cons layer pre ih =>
    intro i base bounds hall hbase
    obtain ⟨d, hd⟩ := hall layer (List.mem_cons_self _ _)
    have hrest : ∀ p ∈ pre, ∃ d, (LoadImage env p).1 = (some d, none) :=
      fun p hp => hall p (List.mem_cons_of_mem _ hp)
    obtain ⟨canvas, hcanvas⟩ : ∃ canvas, base = some canvas := by
      rcases hbase with h | h
      · exact absurd h (List.cons_ne_nil _ _)
      · exact h
    subst hcanvas
    have hL := LoadImage_eq_of_fst env layer _ hd
    rw [LoadImage_calls] at hL
    rw [List.cons_append, GenerateBaseImage.loop, hL]
    simp only [Nat.succ_ne_zero, if_false]
    obtain ⟨h1, h2⟩ := ih (i + 1)
      (some (env.Draw canvas canvas.Bounds
        (if decide (bounds ≠ d.image.Bounds) = true then
          env.Resize (toUint bounds.Dx) (toUint bounds.Dy) d.image else d.image) ⟨0, 0⟩))
      bounds hrest (Or.inr ⟨_, rfl⟩)
    refine ⟨h1, ?_⟩
    rw [opened_append, h2]
    split <;> simp [opened, opened_append]

/-- Claim C4: when every layer before `bad` loads to an image and `bad` fails to
load, `GenerateBaseImage` returns a nil canvas with the error of `bad`, and
the files opened are those layers and `bad`, none of the later ones. -/
theorem GenerateBaseImage_fail_fast {F : Type} (env : Env F) (pre : List String)
    (bad : String) (post : List String) (err : GoError)
    (hpre : ∀ p ∈ pre, ∃ d, (LoadImage env p).1 = (some d, none))
    (hbad : (LoadImage env bad).1.2 = some err) :
    (GenerateBaseImage env (pre ++ bad :: post)).1 =
        some (DrawImage.nilInterface, some err) ∧
      opened (GenerateBaseImage env (pre ++ bad :: post)).2 = pre ++ [bad] := by
  cases pre with
  | nil =>
    rcases hL : LoadImage env bad with ⟨⟨o, e⟩, calls⟩
    have hc := LoadImage_calls env bad
    rw [hL] at hbad hc
    simp only at hbad hc
    subst hbad hc
    rw [List.nil_append, GenerateBaseImage, GenerateBaseImage.loop, hL]
    cases o <;> exact ⟨rfl, rfl⟩
  | cons layer pre =>
    obtain ⟨d, hd⟩ := hpre layer (List.mem_cons_self _ _)
    have hrest : ∀ p ∈ pre, ∃ d, (LoadImage env p).1 = (some d, none) :=
      fun p hp => hpre p (List.mem_cons_of_mem _ hp)
    have hL := LoadImage_eq_of_fst env layer _ hd
    rw [LoadImage_calls] at hL
    rw [List.cons_append, GenerateBaseImage, GenerateBaseImage.loop, hL]
    simp only [↓reduceIte]
    obtain ⟨h1, h2⟩ := loop_succ_fail env bad post err hbad pre 0
      (some (env.Draw (NewRGBA (Rect 0 0 d.image.Bounds.Dx d.image.Bounds.Dy))
        (NewRGBA (Rect 0 0 d.image.Bounds.Dx d.image.Bounds.Dy)).Bounds
        (if decide (d.image.Bounds ≠ d.image.Bounds) = true then
          env.Resize (toUint d.image.Bounds.Dx) (toUint d.image.Bounds.Dy) d.image
          else d.image) ⟨0, 0⟩))
      d.image.Bounds hrest (Or.inr ⟨_, rfl⟩)
    refine ⟨h1, ?_⟩
    rw [opened_append, h2]
    split <;> simp [opened, opened_append]

/-- Claim C4 in the sample environment: `missing.png` after one good layer and
before another. -/
theorem GenerateBaseImage_fail_fast_witness :
    (GenerateBaseImage sampleEnv (["a.png"] ++ "missing.png" :: ["b.png"])).1 =
        some (DrawImage.nilInterface,
          some ⟨"open missing.png: no such file or directory"⟩) ∧
      opened (GenerateBaseImage sampleEnv (["a.png"] ++ "missing.png" :: ["b.png"])).2 =
        ["a.png"] ++ ["missing.png"] :=
  GenerateBaseImage_fail_fast sampleEnv ["a.png"] "missing.png" ["b.png"]
    ⟨"open missing.png: no such file or directory"⟩
    (by
      intro p hp
      simp only [List.mem_singleton] at hp
      subst hp
      exact ⟨sampleRaster, rfl⟩)
    rfl

/-! ## The marker height: claims -/

theorem log_two_eq (q : ℚ) (e : Int) (hq : 0 < q) (h1 : (2 : ℚ) ^ e ≤ q)
    (h2 : q < (2 : ℚ) ^ (e + 1)) : Int.log 2 q = e := by
  have ha : e ≤ Int.log 2 q := (Int.zpow_le_iff_le_log (by norm_num) hq).1 (by exact_mod_cast h1)
  have hb : Int.log 2 q < e + 1 := (Int.lt_zpow_iff_log_lt (by norm_num) hq).1 (by exact_mod_cast h2)
  omega

/-- The result of `roundHalfEven` is within one half of its argument, and at
distance exactly one half only when it is even. -/
theorem roundHalfEven_spec (t : ℚ) :
    (roundHalfEven t : ℚ) - t ≤ 1 / 2 ∧ t - roundHalfEven t ≤ 1 / 2 ∧
    (t - roundHalfEven t = 1 / 2 → roundHalfEven t % 2 = 0) ∧
    ((roundHalfEven t : ℚ) - t = 1 / 2 → roundHalfEven t % 2 = 0) := by
  have h1 : (⌊t⌋ : ℚ) ≤ t := Int.floor_le t
  have h2 : t < ⌊t⌋ + 1 := Int.lt_floor_add_one t
  unfold roundHalfEven
  simp only
  split_ifs with ha hb hc
  · refine ⟨by linarith, by linarith, ?_, ?_⟩ <;> intro h <;> exfalso <;> linarith
  · refine ⟨by push_cast; linarith, by push_cast; linarith, ?_, ?_⟩ <;> intro h <;>
      exfalso <;> push_cast at h <;> linarith
  · exact ⟨by linarith, by linarith, fun _ => hc, fun _ => hc⟩
  · refine ⟨by push_cast; linarith, by push_cast; linarith, fun _ => ?_, fun _ => ?_⟩ <;> omega

theorem roundHalfEven_intCast (z : Int) : roundHalfEven (z : ℚ) = z := by
  unfold roundHalfEven
  simp

/-- An integer within less than one half of `t`, or at one half and even, is
the result of `roundHalfEven`. -/
theorem roundHalfEven_eq (t : ℚ) (m : Int)
    (h1 : (m : ℚ) - t ≤ 1 / 2) (h2 : t - m ≤ 1 / 2)
    (h3 : t - m = 1 / 2 → m % 2 = 0) (h4 : (m : ℚ) - t = 1 / 2 → m % 2 = 0) :
    roundHalfEven t = m := by
  obtain ⟨g1, g2, g3, g4⟩ := roundHalfEven_spec t
  generalize roundHalfEven t = r at g1 g2 g3 g4
  have hlt : ((r - m : Int) : ℚ) ≤ 1 := by push_cast; linarith
  have hgt : ((m - r : Int) : ℚ) ≤ 1 := by push_cast; linarith
  have hlt2 : r - m ≤ 1 := by exact_mod_cast hlt
  have hgt2 : m - r ≤ 1 := by exact_mod_cast hgt
  by_contra hne
  rcases (show r = m + 1 ∨ m = r + 1 by omega) with h | h
  · subst h
    have e1 : t - m = 1 / 2 := by push_cast at g1; linarith
    have e2 : ((m + 1 : Int) : ℚ) - t = 1 / 2 := by push_cast; linarith
    have := h3 e1
    have := g4 e2
    omega
  · subst h
    have e2 : t - r = 1 / 2 := by push_cast at h1; linarith
    have e3 : ((r + 1 : Int) : ℚ) - t = 1 / 2 := by push_cast; linarith
    have := g3 e2
    have := h4 e3
    omega

theorem ulpExp_eq (q : ℚ) (x : Int) (hx : -1074 ≤ x) (hq : 0 < q)
    (h1 : (2 : ℚ) ^ (x + 52) ≤ q) (h2 : q < (2 : ℚ) ^ (x + 53)) : ulpExp q = x := by
  have h := log_two_eq q (x + 52) hq h1 (by rw [show x + 52 + 1 = x + 53 by ring]; exact h2)
  unfold ulpExp
  rw [h]
  omega

theorem roundPos_eq (q : ℚ) (x : Int) (hx : -1074 ≤ x) (hq : 0 < q)
    (h1 : (2 : ℚ) ^ (x + 52) ≤ q) (h2 : q < (2 : ℚ) ^ (x + 53)) :
    roundPos q = roundHalfEven (q / 2 ^ x) * 2 ^ x := by
  unfold roundPos
  rw [ulpExp_eq q x hx hq h1 h2]

/-- Rounding a positive rational below `2^53` that is at least `1/8`: the unit
in the last place is `1 / 2^j` for some `j` from 0 to 55. -/
theorem roundPos_small (q : ℚ) (h1 : 1 / 8 ≤ q) (h2 : q < 2 ^ 53) :
    ∃ j : Nat, j ≤ 55 ∧ (2 : ℚ) ^ 52 ≤ q * 2 ^ j ∧ q * 2 ^ j < 2 ^ 53 ∧
      roundPos q = roundHalfEven (q * 2 ^ j) / 2 ^ j := by
  have hq : 0 < q := by linarith
  have he1 : (2 : ℚ) ^ Int.log 2 q ≤ q := Int.zpow_log_le_self (by norm_num) hq
  have he2 : q < (2 : ℚ) ^ (Int.log 2 q + 1) := Int.lt_zpow_succ_log_self (by norm_num) q
  have hlo : -3 ≤ Int.log 2 q :=
    (Int.zpow_le_iff_le_log (by norm_num) hq).1 (by norm_num; linarith)
  have hhi : Int.log 2 q < 53 :=
    (Int.lt_zpow_iff_log_lt (by norm_num) hq).1 (by norm_num; linarith)
  generalize Int.log 2 q = e at he1 he2 hlo hhi
  obtain ⟨j, hj⟩ : ∃ j : Nat, (j : Int) = 52 - e := ⟨(52 - e).toNat, by omega⟩
  have hx : e = 52 - j := by omega
  subst hx
  have hpos : (0 : ℚ) < 2 ^ j := by positivity
  have hz : (2 : ℚ) ^ (-(j : Int)) = 1 / 2 ^ j := by
    rw [zpow_neg, zpow_natCast, one_div]
  have ha : (2 : ℚ) ^ (52 - (j : Int)) = 2 ^ 52 / 2 ^ j := by
    rw [zpow_sub₀ (by norm_num), zpow_natCast]; norm_num
  have hb : (2 : ℚ) ^ (52 - (j : Int) + 1) = 2 ^ 53 / 2 ^ j := by
    rw [show (52 - (j : Int) + 1) = 53 - j by ring, zpow_sub₀ (by norm_num), zpow_natCast]
    norm_num
  rw [ha] at he1
  rw [hb] at he2
  have g1 : (2 : ℚ) ^ 52 ≤ q * 2 ^ j := by
    rwa [div_le_iff₀ hpos] at he1
  have g2 : q * 2 ^ j < 2 ^ 53 := by
    rwa [lt_div_iff₀ hpos] at he2
  refine ⟨j, by omega, g1, g2, ?_⟩
  have hr := roundPos_eq q (-(j : Int)) (by omega) hq
    (by rw [show (-(j : Int) + 52) = 52 - j by ring, ha, div_le_iff₀ hpos]; exact g1)
    (by rw [show (-(j : Int) + 53) = 53 - j by ring, zpow_sub₀ (by norm_num), zpow_natCast,
          lt_div_iff₀ hpos]; norm_num; exact g2)
  rw [hr, hz]
  field_simp

theorem roundFloat64_of_pos (q : ℚ) (hq : 0 < q) (h : roundPos q < 2 ^ 1024)
    (h0 : 0 ≤ roundPos q) : roundFloat64 q = some (roundPos q) := by
  unfold roundFloat64
  have h1 : q ≠ 0 := ne_of_gt hq
  have h2 : ¬ q < 0 := not_lt.2 hq.le
  simp only [h1, h2, if_false]
  rw [abs_of_nonneg h0, if_pos h]

/-- An integer from 0 to `2^53 - 1` converts to `float64` exactly. -/
theorem roundFloat64_intCast (H : Int) (h0 : 0 ≤ H) (h1 : H < 2 ^ 53) :
    roundFloat64 (H : ℚ) = some (H : ℚ) := by
  rcases eq_or_lt_of_le h0 with h | h
  · subst h
    simp [roundFloat64]
  · have hH1 : (1 : ℚ) ≤ H := by exact_mod_cast (show (1 : Int) ≤ H by omega)
    have hH2 : (H : ℚ) < 2 ^ 53 := by exact_mod_cast h1
    obtain ⟨j, _, _, _, hr⟩ := roundPos_small (H : ℚ) (by linarith) hH2
    have hcast : (H : ℚ) * 2 ^ j = ((H * 2 ^ j : Int) : ℚ) := by push_cast; ring
    rw [hcast, roundHalfEven_intCast] at hr
    have hpos : (0 : ℚ) < 2 ^ j := by positivity
    have hval : roundPos (H : ℚ) = H := by
      rw [hr]; push_cast; field_simp
    have := roundFloat64_of_pos (H : ℚ) (by linarith) (by rw [hval]; linarith [show (2:ℚ) ^ 53 < 2 ^ 1024 by norm_num]) (by rw [hval]; linarith)
    rw [this, hval]

/-- The `float64` nearest to one seventh lies below it:
`5146971002709138 / 2^55`. -/
theorem roundFloat64_seventh :
    roundFloat64 (1 / 7) = some (5146971002709138 / 2 ^ 55) := by
  have hr : roundPos (1 / 7) = 5146971002709138 / 2 ^ 55 := by
    rw [roundPos_eq (1 / 7) (-55) (by norm_num) (by norm_num) (by norm_num) (by norm_num),
      roundHalfEven_eq (1 / 7 / 2 ^ (-55 : Int)) 5146971002709138 (by norm_num) (by norm_num)
        (by norm_num) (by norm_num)]
    norm_num
  rw [roundFloat64_of_pos (1 / 7) (by norm_num) (by rw [hr]; norm_num) (by rw [hr]; norm_num), hr]

/-- The product of the `float64` nearest to one seventh with an integer from 1
to `2^53 - 1`, rounded to `float64`, has integer part `H / 7`. -/
theorem mul_seventh_floor (H : Int) (h0 : 1 ≤ H) (h1 : H < 2 ^ 53) :
    ∃ R : ℚ, roundFloat64 (5146971002709138 / 2 ^ 55 * H) = some R ∧ 0 ≤ R ∧
      ⌊R⌋ = H / 7 := by
  have hH0 : (1 : ℚ) ≤ H := by exact_mod_cast h0
  have hH1 : (H : ℚ) < 2 ^ 53 := by exact_mod_cast h1
  have hH1n : (H : ℚ) < 9007199254740992 := by norm_num at hH1; exact hH1
  generalize hv : (5146971002709138 / 2 ^ 55 * (H : ℚ)) = v
  have hvH : 7 * 36028797018963968 * v = 36028797018963966 * H := by
    rw [← hv]; norm_num; ring
  have hv0 : 1 / 8 ≤ v := by linarith
  have hv1 : v < 2 ^ 53 := by norm_num; linarith
  obtain ⟨j, _, g1, g2, hr⟩ := roundPos_small v hv0 hv1
  obtain ⟨s1, s2, s3, _⟩ := roundHalfEven_spec (v * 2 ^ j)
  generalize hm : roundHalfEven (v * 2 ^ j) = m at hr s1 s2 s3
  -- the unit in the last place is at most one quarter
  have hj : 2 ≤ j := by
    by_contra hlt
    have hj1 : j = 0 ∨ j = 1 := by omega
    rcases hj1 with h | h <;> subst h <;> norm_num at g1 <;> linarith
  obtain ⟨P, hP⟩ : ∃ P : Int, P = 2 ^ j := ⟨_, rfl⟩
  have hP4 : 4 ≤ P := by
    rw [hP]
    calc (4 : Int) = 2 ^ 2 := by norm_num
      _ ≤ 2 ^ j := pow_le_pow_right₀ (by norm_num) hj
  have hPq : (2 : ℚ) ^ j = (P : ℚ) := by rw [hP]; push_cast; rfl
  rw [hPq] at g1 g2 s1 s2 s3 hr
  have hP4q : (4 : ℚ) ≤ P := by exact_mod_cast hP4
  -- quotient and remainder
  obtain ⟨k, hk⟩ : ∃ k : Int, k = H / 7 := ⟨_, rfl⟩
  obtain ⟨r, hrr⟩ : ∃ r : Int, r = H % 7 := ⟨_, rfl⟩
  have hdiv : H = 7 * k + r := by omega
  have hr0 : 0 ≤ r := by omega
  have hr6 : r ≤ 6 := by omega
  have hk0 : 0 ≤ k := by omega
  obtain ⟨X, hX⟩ : ∃ X : Int, X = k * P := ⟨_, rfl⟩
  obtain ⟨Y, hY⟩ : ∃ Y : Int, Y = r * P := ⟨_, rfl⟩
  have hX0 : 0 ≤ X := by rw [hX]; exact mul_nonneg hk0 (by omega)
  have hY0 : 0 ≤ Y := by rw [hY]; exact mul_nonneg hr0 (by omega)
  have hY6 : Y ≤ 6 * P := by rw [hY]; nlinarith
  have hX0q : (0 : ℚ) ≤ X := by exact_mod_cast hX0
  have hY0q : (0 : ℚ) ≤ Y := by exact_mod_cast hY0
  have hY6q : (Y : ℚ) ≤ 6 * P := by exact_mod_cast hY6
  have hHP : (H : ℚ) * P = 7 * X + Y := by
    rw [hdiv, hX, hY]; push_cast; ring
  have ht : 7 * 36028797018963968 * (v * P) = 36028797018963966 * (7 * X + Y) := by
    rw [← hHP]; linear_combination (P : ℚ) * hvH
  norm_num at g1 g2
  -- upper bound
  have hup : m < X + P := by
    by_contra hge
    have hge1 : X + P ≤ m := by omega
    have hge2 : (X : ℚ) + P ≤ m := by exact_mod_cast hge1
    linarith
  -- lower bound
  have hlo : X ≤ m := by
    by_contra hlt
    have hlt1 : m ≤ X - 1 := by omega
    have hlt2 : (m : ℚ) ≤ X - 1 := by exact_mod_cast hlt1
    have hX1 : (9007199254740992 : ℚ) ≤ X := by linarith
    have hX2 : (X : ℚ) < 9007199254740993 := by linarith
    have hX1i : (9007199254740992 : Int) ≤ X := by exact_mod_cast hX1
    have hX2i : X < (9007199254740993 : Int) := by exact_mod_cast hX2
    have hXe : X = 9007199254740992 := by omega
    have hXeq : (X : ℚ) = 9007199254740992 := by rw [hXe]; norm_num
    have hYe : (Y : ℚ) = 0 := by linarith
    have hme : (m : ℚ) = 9007199254740991 := by linarith
    have hmi : m = 9007199254740991 := by exact_mod_cast hme
    have htie : v * P - m = 1 / 2 := by linarith
    have := s3 htie
    omega
  have hPpos : (0 : ℚ) < P := by linarith
  have hloq : (k : ℚ) * P ≤ m := by
    have : ((k * P : Int) : ℚ) ≤ m := by rw [← hX]; exact_mod_cast hlo
    push_cast at this; exact this
  have hupq : (m : ℚ) < (k + 1) * P := by
    have : (m : ℚ) < ((k * P + P : Int) : ℚ) := by rw [← hX]; exact_mod_cast hup
    push_cast at this; linarith
  have hR0 : (0 : ℚ) ≤ m / P := div_nonneg (by linarith [mul_nonneg (show (0:ℚ) ≤ k by exact_mod_cast hk0) hPpos.le]) hPpos.le
  have hRlt : (m : ℚ) / P < k + 1 := by rw [div_lt_iff₀ hPpos]; exact hupq
  have hkq : (k : ℚ) + 1 ≤ 2 ^ 53 := by
    have : k + 1 ≤ 2 ^ 53 := by omega
    exact_mod_cast this
  refine ⟨m / P, ?_, hR0, ?_⟩
  · have hvpos : 0 < v := by linarith
    rw [roundFloat64_of_pos v hvpos (by rw [hr]; linarith [show (2:ℚ) ^ 53 < 2 ^ 1024 by norm_num])
      (by rw [hr]; exact hR0), hr]
  · rw [← hk, Int.floor_eq_iff]
    exact ⟨by rw [le_div_iff₀ hPpos]; exact hloq, hRlt⟩

theorem truncate_of_nonneg (x : ℚ) (h : 0 ≤ x) : truncate x = ⌊x⌋ := by
  unfold truncate
  rw [if_pos h]

theorem ieee64_ofConst_seventh (io : Option ℚ → Int) (uo : Option ℚ → Nat) :
    (ieee64 io uo).ofConst cellSizeHight = some (5146971002709138 / 2 ^ 55) := by
  show roundFloat64 cellSizeHight = _
  rw [cellSizeHight, roundFloat64_seventh]

theorem ieee64_ofInt (io : Option ℚ → Int) (uo : Option ℚ → Nat) (H : Int) (h0 : 0 ≤ H)
    (h1 : H < 2 ^ 53) : (ieee64 io uo).ofInt H = some (H : ℚ) :=
  roundFloat64_intCast H h0 h1

theorem ieee64_mul (io : Option ℚ → Int) (uo : Option ℚ → Nat) (a b : ℚ) :
    (ieee64 io uo).mul (some a) (some b) = roundFloat64 (a * b) :=
  rfl

theorem ieee64_toUint (io : Option ℚ → Int) (uo : Option ℚ → Nat) (R : ℚ)
    (h0 : 0 ≤ truncate R) (h1 : truncate R < 2 ^ 64) :
    (ieee64 io uo).toUint (some R) = (truncate R).toNat := by
  show (if 0 ≤ truncate R ∧ truncate R < 2 ^ 64 then (truncate R).toNat else uo (some R)) = _
  rw [if_pos ⟨h0, h1⟩]

theorem ieee64_toInt (io : Option ℚ → Int) (uo : Option ℚ → Nat) (R : ℚ)
    (h0 : -2 ^ 63 ≤ truncate R) (h1 : truncate R < 2 ^ 63) :
    (ieee64 io uo).toInt (some R) = truncate R := by
  show (if -2 ^ 63 ≤ truncate R ∧ truncate R < 2 ^ 63 then truncate R else io (some R)) = _
  rw [if_pos ⟨h0, h1⟩]

/-- On a canvas height from 0 to `2^53 - 1` the `float64` expression
`cellSizeHight*float64(H)`, converted to `uint`, is `H / 7`. -/
theorem ieee64_height (io : Option ℚ → Int) (uo : Option ℚ → Nat) (H : Int) (h0 : 0 ≤ H)
    (h1 : H < 2 ^ 53) :
    (ieee64 io uo).toUint ((ieee64 io uo).mul ((ieee64 io uo).ofConst cellSizeHight)
      ((ieee64 io uo).ofInt H)) = (H / 7).toNat := by
  rw [ieee64_ofConst_seventh, ieee64_ofInt io uo H h0 h1, ieee64_mul]
  rcases eq_or_lt_of_le h0 with h | h
  · subst h
    have hz : roundFloat64 (5146971002709138 / 2 ^ 55 * ((0 : Int) : ℚ)) = some 0 := by
      simp [roundFloat64]
    rw [hz, ieee64_toUint io uo 0 (by simp [truncate]) (by simp [truncate])]
    simp [truncate]
  · obtain ⟨R, hR, hR0, hfl⟩ := mul_seventh_floor H (by omega) h1
    rw [hR, ieee64_toUint io uo R (by rw [truncate_of_nonneg R hR0, hfl]; omega)
      (by rw [truncate_of_nonneg R hR0, hfl]; omega), truncate_of_nonneg R hR0, hfl]

theorem getHex_of_loaded {F : Type} (fl : FloatOps F) (env : Env F) (coord : String)
    (color : Color) (baseBounds : Rectangle) (hexImg : Decoded)
    (hvalid : isValidCoord env.unicodeLower coord = true)
    (hload : (LoadImage env (env.pathJoin env.staticPath ("hex_" ++ color ++ ".png"))).1 =
      (some hexImg, none)) :
    getHex fl env coord color baseBounds =
      (some (⟨some (env.Resize 0
          (fl.toUint (fl.mul (fl.ofConst cellSizeHight) (fl.ofInt baseBounds.Dy)))
          hexImg.image),
        getTargetPoint fl env coord baseBounds (env.Resize 0
          (fl.toUint (fl.mul (fl.ofConst cellSizeHight) (fl.ofInt baseBounds.Dy)))
          hexImg.image).Bounds⟩, none),
       [Call.Open (env.pathJoin env.staticPath ("hex_" ++ color ++ ".png")),
        Call.Resize 0 (fl.toUint (fl.mul (fl.ofConst cellSizeHight)
          (fl.ofInt baseBounds.Dy)))]) := by
  have hL := LoadImage_eq_of_fst env _ _ hload
  rw [LoadImage_calls] at hL
  rw [getHex, hvalid, hL]
  rfl

/-- Claim C7, as stated, fails: on a canvas of height `2^53 + 17` the height
asked of the resize is 1286742750677286, one less than the height divided by
seven. -/
theorem getHex_height_counterexample :
    Rectangle.Dy ⟨⟨0, 0⟩, ⟨0, 9007199254741009⟩⟩ = 9007199254741009 ∧
    (9007199254741009 : Int) / 7 = 1286742750677287 ∧
    (getHex sampleFloat sampleEnv "d4" "red" ⟨⟨0, 0⟩, ⟨0, 9007199254741009⟩⟩).2 =
      [Call.Open "static/hex_red.png", Call.Resize 0 1286742750677286] := by
  have hdy : Rectangle.Dy ⟨⟨0, 0⟩, ⟨0, 9007199254741009⟩⟩ = 9007199254741009 := by decide
  refine ⟨hdy, by decide, ?_⟩
  rw [getHex_of_loaded sampleFloat sampleEnv "d4" "red" _ sampleRaster (by decide) rfl, hdy]
  have hc : sampleFloat.ofConst cellSizeHight = some (5146971002709138 / 2 ^ 55) :=
    ieee64_ofConst_seventh _ _
  have hH : sampleFloat.ofInt 9007199254741009 = some 9007199254741008 := by
    show roundFloat64 ((9007199254741009 : Int) : ℚ) = _
    have hr : roundPos ((9007199254741009 : Int) : ℚ) = 9007199254741008 := by
      rw [roundPos_eq _ 1 (by norm_num) (by norm_num) (by norm_num) (by norm_num),
        roundHalfEven_eq _ 4503599627370504 (by norm_num) (by norm_num)
          (fun _ => by decide) (fun _ => by decide)]
      norm_num
    rw [roundFloat64_of_pos _ (by norm_num) (by rw [hr]; norm_num) (by rw [hr]; norm_num), hr]
  have hm : sampleFloat.mul (some (5146971002709138 / 2 ^ 55)) (some 9007199254741008) =
      some (5146971002709147 / 4) := by
    show roundFloat64 (5146971002709138 / 2 ^ 55 * 9007199254741008) = _
    have hr : roundPos (5146971002709138 / 2 ^ 55 * 9007199254741008) =
        5146971002709147 / 4 := by
      rw [roundPos_eq _ (-2) (by norm_num) (by norm_num) (by norm_num) (by norm_num),
        roundHalfEven_eq _ 5146971002709147 (by norm_num) (by norm_num)
          (by norm_num) (by norm_num)]
      norm_num
    rw [roundFloat64_of_pos _ (by norm_num) (by rw [hr]; norm_num) (by rw [hr]; norm_num), hr]
  have ht : truncate (5146971002709147 / 4) = 1286742750677286 := by
    rw [truncate_of_nonneg _ (by norm_num), Int.floor_eq_iff]
    norm_num
  have hu : sampleFloat.toUint (some (5146971002709147 / 4)) = 1286742750677286 := by
    have h := ieee64_toUint (fun _ => -2 ^ 63) (fun _ => 2 ^ 63) (5146971002709147 / 4)
      (by rw [ht]; decide) (by rw [ht]; decide)
    rw [ht] at h
    exact h
  rw [hc, hH, hm, hu]
  rfl

/-- Claim C7, amended: for a valid coordinate, a colour whose asset loads and a
canvas of height `H` with `0 ≤ H < 2^53`, `getHex` opens the asset and asks
for one resize, to width 0 and height `H / 7` rounded down; the height is a
function of `H` alone, `cellSizeWight` does not occur. -/
theorem getHex_height (io : Option ℚ → Int) (uo : Option ℚ → Nat) (env : Env (Option ℚ))
    (coord : String) (color : Color) (baseBounds : Rectangle) (hexImg : Decoded)
    (hvalid : isValidCoord env.unicodeLower coord = true)
    (hload : (LoadImage env (env.pathJoin env.staticPath ("hex_" ++ color ++ ".png"))).1 =
      (some hexImg, none))
    (h0 : 0 ≤ baseBounds.Dy) (h1 : baseBounds.Dy < 2 ^ 53) :
    (getHex (ieee64 io uo) env coord color baseBounds).2 =
      [Call.Open (env.pathJoin env.staticPath ("hex_" ++ color ++ ".png")),
       Call.Resize 0 (baseBounds.Dy / 7).toNat] ∧
    ∃ rect, (getHex (ieee64 io uo) env coord color baseBounds).1 =
      some (⟨some (env.Resize 0 (baseBounds.Dy / 7).toNat hexImg.image), rect⟩, none) := by
  rw [getHex_of_loaded (ieee64 io uo) env coord color baseBounds hexImg hvalid hload,
    ieee64_height io uo baseBounds.Dy h0 h1]
  exact ⟨rfl, _, rfl⟩

/-- Claim C7, amended, on a canvas of 700 by 700 pixels: the height asked for is
100. -/
theorem getHex_height_witness :
    (getHex sampleFloat sampleEnv "d4" "red" ⟨⟨0, 0⟩, ⟨700, 700⟩⟩).2 =
      [Call.Open "static/hex_red.png", Call.Resize 0 100] :=
  (getHex_height (fun _ => -2 ^ 63) (fun _ => 2 ^ 63) sampleEnv "d4" "red"
    ⟨⟨0, 0⟩, ⟨700, 700⟩⟩ sampleRaster (by decide) rfl (by decide) (by decide)).1

/-! ## The target origin: claims -/

/-- Rounding a positive rational below `2^53`: the unit in the last place is
`1 / 2^j`, with `j` at least any `k ≤ 1074` for which `q * 2^k` is below
`2^53`. -/
theorem roundPos_dyadic (q : ℚ) (hq : 0 < q) (h2 : q < 2 ^ 53) :
    ∃ j : Nat, roundPos q = roundHalfEven (q * 2 ^ j) / 2 ^ j ∧
      (∀ k : Nat, k ≤ 1074 → q * 2 ^ k < 2 ^ 53 → k ≤ j) := by
  have hhi : Int.log 2 q < 53 :=
    (Int.lt_zpow_iff_log_lt (by norm_num) hq).1 (by norm_num; linarith)
  have he : ulpExp q ≤ 0 := by unfold ulpExp; omega
  obtain ⟨j, hj⟩ : ∃ j : Nat, (j : Int) = -ulpExp q := ⟨(-ulpExp q).toNat, by omega⟩
  have hx : ulpExp q = -(j : Int) := by omega
  have hz : (2 : ℚ) ^ (-(j : Int)) = 1 / 2 ^ j := by
    rw [zpow_neg, zpow_natCast, one_div]
  refine ⟨j, ?_, ?_⟩
  · unfold roundPos
    rw [hx, hz]
    field_simp
  · intro k hk hlt
    have hpos : (0 : ℚ) < 2 ^ k := by positivity
    have h3 : q < (2 : ℚ) ^ ((53 : Int) - k) := by
      rw [zpow_sub₀ (by norm_num), zpow_natCast, lt_div_iff₀ hpos]
      norm_num
      norm_num at hlt
      exact hlt
    have h4 : Int.log 2 q < 53 - k :=
      (Int.lt_zpow_iff_log_lt (by norm_num) hq).1 (by exact_mod_cast h3)
    have h5 : ulpExp q ≤ -(k : Int) := by unfold ulpExp; omega
    omega

/-- Rounding a rational `q` with `0 ≤ q < 2^53` to `float64` gives a finite
value between the integer part of `q` and the next integer, and `q` itself
when `q` is `n / 2^k` with `n < 2^53` and `k ≤ 1074`. -/
theorem roundFloat64_near (q : ℚ) (h0 : 0 ≤ q) (h1 : q < 2 ^ 53) :
    ∃ R : ℚ, roundFloat64 q = some R ∧ (⌊q⌋ : ℚ) ≤ R ∧ R ≤ ⌊q⌋ + 1 ∧ 0 ≤ ⌊q⌋ ∧
      ⌊q⌋ + 1 ≤ 2 ^ 53 ∧
      (∀ n k : Nat, n < 2 ^ 53 → k ≤ 1074 → q = n / 2 ^ k → R = q) := by
  have hf0 : 0 ≤ ⌊q⌋ := Int.floor_nonneg.2 h0
  have hf1 : ⌊q⌋ + 1 ≤ 2 ^ 53 := by
    have : (⌊q⌋ : ℚ) < ((2 ^ 53 : Int) : ℚ) := by
      push_cast; exact lt_of_le_of_lt (Int.floor_le q) h1
    have : ⌊q⌋ < 2 ^ 53 := by exact_mod_cast this
    omega
  rcases eq_or_lt_of_le h0 with h | h
  · subst h
    refine ⟨0, by simp [roundFloat64], by simp, by simp, hf0, hf1, ?_⟩
    intro n k _ _ hq
    exact hq.trans (by rw [← hq])
  · obtain ⟨j, hr, hk⟩ := roundPos_dyadic q h h1
    obtain ⟨s1, s2, _, _⟩ := roundHalfEven_spec (q * 2 ^ j)
    obtain ⟨P, hP⟩ : ∃ P : Int, P = 2 ^ j := ⟨_, rfl⟩
    have hPq : (2 : ℚ) ^ j = (P : ℚ) := by rw [hP]; push_cast; rfl
    have hP1 : 1 ≤ P := by rw [hP]; exact one_le_pow₀ (by norm_num)
    have hPpos : (0 : ℚ) < P := by exact_mod_cast (show (0 : Int) < P by omega)
    rw [hPq] at hr s1 s2
    generalize hm : roundHalfEven (q * (P : ℚ)) = m at hr s1 s2
    have hq0 : (⌊q⌋ : ℚ) ≤ q := Int.floor_le q
    have hq1 : q < ⌊q⌋ + 1 := Int.lt_floor_add_one q
    have ht0 : (⌊q⌋ : ℚ) * P ≤ q * P := mul_le_mul_of_nonneg_right hq0 hPpos.le
    have ht1 : q * P < (⌊q⌋ + 1) * P := mul_lt_mul_of_pos_right hq1 hPpos
    have hlo : ⌊q⌋ * P ≤ m := by
      by_contra hlt
      have h3 : m ≤ ⌊q⌋ * P - 1 := by omega
      have h4 : (m : ℚ) ≤ ⌊q⌋ * P - 1 := by exact_mod_cast h3
      linarith
    have hup : m ≤ (⌊q⌋ + 1) * P := by
      by_contra hlt
      have h3 : (⌊q⌋ + 1) * P + 1 ≤ m := by omega
      have h4 : ((⌊q⌋ : ℚ) + 1) * P + 1 ≤ m := by exact_mod_cast h3
      linarith
    have hloq : (⌊q⌋ : ℚ) * P ≤ m := by exact_mod_cast hlo
    have hupq : (m : ℚ) ≤ (⌊q⌋ + 1) * P := by exact_mod_cast hup
    have hR0 : (⌊q⌋ : ℚ) ≤ m / P := by rw [le_div_iff₀ hPpos]; exact hloq
    have hR1 : (m : ℚ) / P ≤ ⌊q⌋ + 1 := by rw [div_le_iff₀ hPpos]; exact hupq
    have hfq0 : (0 : ℚ) ≤ ⌊q⌋ := by exact_mod_cast hf0
    have hfq1 : (⌊q⌋ : ℚ) + 1 ≤ 2 ^ 53 := by exact_mod_cast hf1
    have hval : roundFloat64 q = some ((m : ℚ) / P) := by
      rw [roundFloat64_of_pos q h
        (by rw [hr]; linarith [show (2 : ℚ) ^ 53 < 2 ^ 1024 by norm_num])
        (by rw [hr]; linarith), hr]
    refine ⟨m / P, hval, hR0, hR1, hf0, hf1, ?_⟩
    intro n k hn hk1 hq
    have hnq : (n : ℚ) < 2 ^ 53 := by exact_mod_cast hn
    have hkpos : (0 : ℚ) < 2 ^ k := by positivity
    have hkj : k ≤ j := hk k hk1 (by rw [hq]; field_simp; exact hnq)
    obtain ⟨d, hd⟩ : ∃ d : Nat, j = k + d := ⟨j - k, by omega⟩
    have hPd : (P : ℚ) = 2 ^ k * 2 ^ d := by rw [← hPq, hd, pow_add]
    have ht : q * (P : ℚ) = ((n * 2 ^ d : Int) : ℚ) := by
      rw [hq, hPd]; push_cast; field_simp; ring
    rw [ht, roundHalfEven_intCast] at hm
    rw [← hm, hq, hPd]
    push_cast
    field_simp
    ring

/-- The origin coordinate `int(float64(W) * x)` for `0 ≤ W < 2^53` and
`0 ≤ x < 1`. -/
theorem ieee64_origin (io : Option ℚ → Int) (uo : Option ℚ → Nat) (W : Int) (x : ℚ)
    (hW0 : 0 ≤ W) (hW1 : W < 2 ^ 53) (hx0 : 0 ≤ x) (hx1 : x < 1) :
    ∃ r : ℚ, roundFloat64 ((W : ℚ) * x) = some r ∧
      (ieee64 io uo).toInt ((ieee64 io uo).mul ((ieee64 io uo).ofInt W) (some x)) = ⌊r⌋ ∧
      ⌊(W : ℚ) * x⌋ ≤ ⌊r⌋ ∧ ⌊r⌋ ≤ ⌊(W : ℚ) * x⌋ + 1 ∧
      (∀ n k : Nat, n < 2 ^ 53 → k ≤ 1074 → (W : ℚ) * x = n / 2 ^ k →
        ⌊r⌋ = ⌊(W : ℚ) * x⌋) := by
  have hWq0 : (0 : ℚ) ≤ W := by exact_mod_cast hW0
  have hWq1 : (W : ℚ) < 2 ^ 53 := by exact_mod_cast hW1
  have hq0 : 0 ≤ (W : ℚ) * x := mul_nonneg hWq0 hx0
  have hq1 : (W : ℚ) * x < 2 ^ 53 :=
    lt_of_le_of_lt (mul_le_of_le_one_right hWq0 hx1.le) hWq1
  obtain ⟨r, hr, h1, h2, hf0, hf1, hex⟩ := roundFloat64_near ((W : ℚ) * x) hq0 hq1
  have hr0 : 0 ≤ r := le_trans (by exact_mod_cast hf0) h1
  have hlo : ⌊(W : ℚ) * x⌋ ≤ ⌊r⌋ := Int.le_floor.2 h1
  have hup : ⌊r⌋ ≤ ⌊(W : ℚ) * x⌋ + 1 := by
    have : (⌊r⌋ : ℚ) ≤ ((⌊(W : ℚ) * x⌋ + 1 : Int) : ℚ) := by
      push_cast; exact le_trans (Int.floor_le r) h2
    exact_mod_cast this
  refine ⟨r, hr, ?_, hlo, hup, ?_⟩
  · rw [ieee64_ofInt io uo W hW0 hW1, ieee64_mul, hr,
      ieee64_toInt io uo r (by rw [truncate_of_nonneg r hr0]; omega)
        (by rw [truncate_of_nonneg r hr0]; omega), truncate_of_nonneg r hr0]
  · intro n k hn hk hq
    rw [hex n k hn hk hq]

theorem sampleEnv_origin_Y (fl : FloatOps (Option ℚ)) (coords : String)
    (base marker : Rectangle) :
    (getTargetPoint fl sampleEnv coords base marker).Min.Y =
      fl.toInt (fl.mul (fl.ofInt base.Dy) (some (1 / 4))) :=
  rfl

theorem thirdsEnv_origin_X (fl : FloatOps (Option ℚ)) (coords : String)
    (base marker : Rectangle) :
    (getTargetPoint fl thirdsEnv coords base marker).Min.X =
      fl.toInt (fl.mul (fl.ofInt base.Dx) (some (6004799503160661 / 18014398509481984))) :=
  rfl

/-- Claim C5, as stated, fails: the origin is not the truncated exact product.
On a canvas of height `2^53 + 3` with normalized `y = 1/4` the origin has
`Y = 2251799813685249`, the truncated product is `2251799813685248`; on a
canvas of width 3 with `x` the `float64` nearest to one third the origin has
`X = 1`, the truncated product is `0`. -/
theorem getTargetPoint_origin_counterexample :
    Rectangle.Dy ⟨⟨0, 0⟩, ⟨0, 9007199254740995⟩⟩ = 9007199254740995 ∧
    (sampleEnv.newCellPoint "d4").y = some (1 / 4) ∧
    (getTargetPoint sampleFloat sampleEnv "d4" ⟨⟨0, 0⟩, ⟨0, 9007199254740995⟩⟩
      ⟨⟨0, 0⟩, ⟨86, 100⟩⟩).Min.Y = 2251799813685249 ∧
    ⌊(9007199254740995 : ℚ) * (1 / 4)⌋ = 2251799813685248 ∧
    Rectangle.Dx ⟨⟨0, 0⟩, ⟨3, 3⟩⟩ = 3 ∧
    (thirdsEnv.newCellPoint "d4").x = some (6004799503160661 / 18014398509481984) ∧
    (getTargetPoint sampleFloat thirdsEnv "d4" ⟨⟨0, 0⟩, ⟨3, 3⟩⟩
      ⟨⟨0, 0⟩, ⟨86, 100⟩⟩).Min.X = 1 ∧
    ⌊(3 : ℚ) * (6004799503160661 / 18014398509481984)⌋ = 0 := by
  have hdy : Rectangle.Dy ⟨⟨0, 0⟩, ⟨0, 9007199254740995⟩⟩ = 9007199254740995 := by decide
  have hdx : Rectangle.Dx ⟨⟨0, 0⟩, ⟨3, 3⟩⟩ = 3 := by decide
  refine ⟨hdy, rfl, ?_, ?_, hdx, rfl, ?_, ?_⟩
  · rw [sampleEnv_origin_Y, hdy]
    have hH : sampleFloat.ofInt 9007199254740995 = some 9007199254740996 := by
      show roundFloat64 ((9007199254740995 : Int) : ℚ) = _
      have hr : roundPos ((9007199254740995 : Int) : ℚ) = 9007199254740996 := by
        rw [roundPos_eq _ 1 (by norm_num) (by norm_num) (by norm_num) (by norm_num),
          roundHalfEven_eq _ 4503599627370498 (by norm_num) (by norm_num)
            (fun _ => by decide) (fun _ => by decide)]
        norm_num
      rw [roundFloat64_of_pos _ (by norm_num) (by rw [hr]; norm_num) (by rw [hr]; norm_num),
        hr]
    have hm : sampleFloat.mul (some 9007199254740996) (some (1 / 4)) =
        some ((2251799813685249 : Int) : ℚ) := by
      show roundFloat64 (9007199254740996 * (1 / 4)) = _
      rw [← roundFloat64_intCast 2251799813685249 (by decide) (by decide)]
      norm_num
    have ht : truncate ((2251799813685249 : Int) : ℚ) = 2251799813685249 := by
      rw [truncate_of_nonneg _ (by norm_num), Int.floor_intCast]
    rw [hH, hm]
    have h := ieee64_toInt (fun _ => -2 ^ 63) (fun _ => 2 ^ 63)
      ((2251799813685249 : Int) : ℚ) (by rw [ht]; decide) (by rw [ht]; decide)
    rw [ht] at h
    exact h
  · rw [Int.floor_eq_iff]
    norm_num
  · rw [thirdsEnv_origin_X, hdx]
    have hH : sampleFloat.ofInt 3 = some ((3 : Int) : ℚ) :=
      ieee64_ofInt _ _ 3 (by decide) (by decide)
    have hm : sampleFloat.mul (some ((3 : Int) : ℚ))
        (some (6004799503160661 / 18014398509481984)) = some ((1 : Int) : ℚ) := by
      show roundFloat64 (((3 : Int) : ℚ) * (6004799503160661 / 18014398509481984)) = _
      have hr : roundPos (((3 : Int) : ℚ) * (6004799503160661 / 18014398509481984)) =
          ((1 : Int) : ℚ) := by
        rw [roundPos_eq _ (-53) (by norm_num) (by norm_num) (by norm_num) (by norm_num),
          roundHalfEven_eq _ 9007199254740992 (by norm_num) (by norm_num)
            (fun _ => by decide) (fun _ => by decide)]
        norm_num
      rw [roundFloat64_of_pos _ (by norm_num) (by rw [hr]; norm_num)
        (by rw [hr]; norm_num), hr]
    have ht : truncate ((1 : Int) : ℚ) = 1 := by
      rw [truncate_of_nonneg _ (by norm_num), Int.floor_intCast]
    rw [hH, hm]
    have h := ieee64_toInt (fun _ => -2 ^ 63) (fun _ => 2 ^ 63) ((1 : Int) : ℚ)
      (by rw [ht]; decide) (by rw [ht]; decide)
    rw [ht] at h
    exact h
  · rw [Int.floor_eq_iff]
    norm_num

/-- Claim C5, amended: for canvas width `W` and height `H` from 0 to `2^53 - 1`
and a normalized position `(x, y)` with `0 ≤ x, y < 1`, the origin of the
rectangle of `getTargetPoint` is the integer part of the `float64` nearest to
`W * x`, and that of the one nearest to `H * y`.  Each coordinate is the
integer part of the exact product or one more, and it is the integer part of
the exact product when that product is a `float64` value, `n / 2^k` with
`n < 2^53` and `k ≤ 1074`.  The far corner is the origin plus the `Max` point
of the marker bounds in wrapping 64-bit arithmetic.  For every canvas the
origin is the same for any other marker bounds and for any other canvas bounds
of the same width and height. -/
theorem getTargetPoint_origin (io : Option ℚ → Int) (uo : Option ℚ → Nat)
    (env : Env (Option ℚ)) (coords : String) (base marker : Rectangle) :
    (∀ x y : ℚ, env.newCellPoint coords = ⟨some x, some y⟩ →
      0 ≤ x → x < 1 → 0 ≤ y → y < 1 →
      0 ≤ base.Dx → base.Dx < 2 ^ 53 → 0 ≤ base.Dy → base.Dy < 2 ^ 53 →
      ∃ rx ry : ℚ,
        roundFloat64 ((base.Dx : ℚ) * x) = some rx ∧
        roundFloat64 ((base.Dy : ℚ) * y) = some ry ∧
        (getTargetPoint (ieee64 io uo) env coords base marker).Min = ⟨⌊rx⌋, ⌊ry⌋⟩ ∧
        (⌊(base.Dx : ℚ) * x⌋ ≤ ⌊rx⌋ ∧ ⌊rx⌋ ≤ ⌊(base.Dx : ℚ) * x⌋ + 1) ∧
        (⌊(base.Dy : ℚ) * y⌋ ≤ ⌊ry⌋ ∧ ⌊ry⌋ ≤ ⌊(base.Dy : ℚ) * y⌋ + 1) ∧
        (∀ n k : Nat, n < 2 ^ 53 → k ≤ 1074 → (base.Dx : ℚ) * x = n / 2 ^ k →
          ⌊rx⌋ = ⌊(base.Dx : ℚ) * x⌋) ∧
        (∀ n k : Nat, n < 2 ^ 53 → k ≤ 1074 → (base.Dy : ℚ) * y = n / 2 ^ k →
          ⌊ry⌋ = ⌊(base.Dy : ℚ) * y⌋) ∧
        (getTargetPoint (ieee64 io uo) env coords base marker).Max =
          ⟨wrapInt (⌊rx⌋ + marker.Max.X), wrapInt (⌊ry⌋ + marker.Max.Y)⟩) ∧
    (∀ marker2 : Rectangle,
      (getTargetPoint (ieee64 io uo) env coords base marker2).Min =
        (getTargetPoint (ieee64 io uo) env coords base marker).Min) ∧
    (∀ base2 : Rectangle, base2.Dx = base.Dx → base2.Dy = base.Dy →
      (getTargetPoint (ieee64 io uo) env coords base2 marker).Min =
        (getTargetPoint (ieee64 io uo) env coords base marker).Min) := by
  refine ⟨?_, fun _ => rfl, ?_⟩
  · intro x y hcell hx0 hx1 hy0 hy1 hW0 hW1 hH0 hH1
    obtain ⟨rx, hrx, hix, hlx, hux, hex⟩ := ieee64_origin io uo base.Dx x hW0 hW1 hx0 hx1
    obtain ⟨ry, hry, hiy, hly, huy, hey⟩ := ieee64_origin io uo base.Dy y hH0 hH1 hy0 hy1
    have hmin : (getTargetPoint (ieee64 io uo) env coords base marker).Min =
        ⟨⌊rx⌋, ⌊ry⌋⟩ := by
      simp only [getTargetPoint, hcell, hix, hiy]
    refine ⟨rx, ry, hrx, hry, hmin, ⟨hlx, hux⟩, ⟨hly, huy⟩, hex, hey, ?_⟩
    have hmax : (getTargetPoint (ieee64 io uo) env coords base marker).Max =
        (getTargetPoint (ieee64 io uo) env coords base marker).Min.Add marker.Max := rfl
    rw [hmax, hmin]
    rfl
  · intro base2 hx hy
    simp only [getTargetPoint, hx, hy]

/-- Claim C5, amended, on a canvas of 700 by 700 pixels with the normalized
position `(1/2, 1/4)` and a marker of 86 by 100 pixels: the rectangle runs from
`(350, 175)` to `(436, 275)`. -/
theorem getTargetPoint_origin_witness :
    (getTargetPoint sampleFloat sampleEnv "d4" ⟨⟨0, 0⟩, ⟨700, 700⟩⟩
      ⟨⟨0, 0⟩, ⟨86, 100⟩⟩).Min = ⟨350, 175⟩ ∧
    (getTargetPoint sampleFloat sampleEnv "d4" ⟨⟨0, 0⟩, ⟨700, 700⟩⟩
      ⟨⟨0, 0⟩, ⟨86, 100⟩⟩).Max = ⟨436, 275⟩ := by
  have hd : Rectangle.Dx ⟨⟨0, 0⟩, ⟨700, 700⟩⟩ = 700 := by decide
  have he : Rectangle.Dy ⟨⟨0, 0⟩, ⟨700, 700⟩⟩ = 700 := by decide
  obtain ⟨rx, ry, _, _, hmin, _, _, hex, hey, hmax⟩ :=
    (getTargetPoint_origin (fun _ => -2 ^ 63) (fun _ => 2 ^ 63) sampleEnv "d4"
      ⟨⟨0, 0⟩, ⟨700, 700⟩⟩ ⟨⟨0, 0⟩, ⟨86, 100⟩⟩).1 (1 / 2) (1 / 4) rfl
      (by norm_num) (by norm_num) (by norm_num) (by norm_num)
      (by decide) (by decide) (by decide) (by decide)
  have hx : ⌊rx⌋ = 350 := by
    rw [hex 350 0 (by norm_num) (by norm_num) (by rw [hd]; norm_num), hd, Int.floor_eq_iff]
    norm_num
  have hy : ⌊ry⌋ = 175 := by
    rw [hey 175 0 (by norm_num) (by norm_num) (by rw [he]; norm_num), he, Int.floor_eq_iff]
    norm_num
  rw [hx, hy] at hmin hmax
  exact ⟨hmin, hmax.trans (by decide)⟩

end hmap
